import Mathlib

/-!
Shallow embedding of the rustmail core (a terminal mail client) in Lean 4,
with theorems checking the natural-language specification against the code.

Conventions of the embedding:
* Rust `String` values are modelled as `List Char` (`Str`); Rust byte
  lengths/offsets are recovered where the source uses them via
  `Char.utf8Size` (the UTF-8 byte width of a character), so that the
  byte/character distinction of the source is preserved.
* Fallible code returns `Option`/`Except`.
* External collaborators (the fuzzy matcher, the mailbox search/fetch
  protocol, the per-message parser) are parameters of the functions that
  call them.
-/

abbrev Str := List Char

/-- Byte length of a string, as Rust's `String::len` (UTF-8 byte count). -/
def byteLen (s : Str) : Nat := (s.map Char.utf8Size).sum

-- ============================================================================
-- Reminder scheduler: `parse_duration` (src/reminders.rs)
-- ============================================================================

/-- Whitespace-trim of a string, as Rust's `str::trim` (restricted to the
ASCII whitespace characters recognised by `Char.isWhitespace`). -/
def strTrim (s : Str) : Str :=
  ((s.dropWhile Char.isWhitespace).reverse.dropWhile Char.isWhitespace).reverse

/-- Split on whitespace runs, as Rust's `str::split_whitespace`: maximal
runs of non-whitespace characters, ignoring leading/trailing whitespace. -/
def splitWS : Str → List Str
  | [] => []
  | c :: rest =>
    let r := splitWS rest
    if c.isWhitespace then r
    else
      match rest with
      | [] => [[c]]
      | d :: _ =>
        if d.isWhitespace then [c] :: r
        else
          match r with
          | [] => [[c]]
          | t :: ts => (c :: t) :: ts

/-- Accumulating decimal-digit reader: `none` as soon as a non-digit occurs. -/
def digitsToNat? : Str → Nat → Option Nat
  | [], acc => some acc
  | c :: r, acc => if c.isDigit then digitsToNat? r (acc * 10 + (c.toNat - '0'.toNat)) else none

/-- Nonempty all-digit string to `Nat`. -/
def parseNatDigits (l : Str) : Option Nat :=
  if l.isEmpty then none else digitsToNat? l 0

/-- Rust's `str::parse::<i64>`: optional sign, one or more ASCII digits,
within the signed 64-bit range. -/
def parseI64 (s : Str) : Option Int :=
  match s with
  | [] => none
  | '-' :: rest =>
    (parseNatDigits rest).bind fun n =>
      if (n : Int) ≤ 2 ^ 63 then some (-(n : Int)) else none
  | '+' :: rest =>
    (parseNatDigits rest).bind fun n =>
      if (n : Int) ≤ 2 ^ 63 - 1 then some (n : Int) else none
  | _ =>
    (parseNatDigits s).bind fun n =>
      if (n : Int) ≤ 2 ^ 63 - 1 then some (n : Int) else none

/-- The errors of `parse_duration`, by the `anyhow!` message they carry:
wrong token count, unparsable count, unrecognised unit. -/
inductive DError
  | invalidFormat
  | invalidNumber (tok : Str)
  | unknownUnit (unit : Str)
  deriving DecidableEq, Repr

/-- Seconds contributed per unit of the given (already lowercased) unit
name: the match arms `"minute" | "minutes" => Duration::minutes(count)`,
…, `"week" | "weeks" => Duration::days(count * 7)`, `"month" | "months"
=> Duration::days(count * 30)` of `parse_duration`, with a chrono
`Duration` modelled by its signed number of seconds. -/
def unitFactor (u : Str) : Option Int :=
  if u = "minute".toList ∨ u = "minutes".toList then some 60
  else if u = "hour".toList ∨ u = "hours".toList then some 3600
  else if u = "day".toList ∨ u = "days".toList then some 86400
  else if u = "week".toList ∨ u = "weeks".toList then some (7 * 86400)
  else if u = "month".toList ∨ u = "months".toList then some (30 * 86400)
  else none

/-- `parse_duration` (src/reminders.rs): trim, split on whitespace, demand
exactly two tokens, parse the first as `i64`, lowercase the second and
dispatch on the unit table.  The result is the chrono `Duration` modelled
as its signed number of seconds; chrono's own out-of-range panics (beyond
±2^63 milliseconds) are outside this model. -/
def parseDuration (input : Str) : Except DError Int :=
  match splitWS (strTrim input) with
  | [p0, p1] =>
    match parseI64 p0 with
    | none => .error (.invalidNumber p0)
    | some count =>
      let unit := p1.map Char.toLower
      match unitFactor unit with
      | some f => .ok (count * f)
      | none => .error (.unknownUnit unit)
  | _ => .error .invalidFormat

-- ============================================================================
-- Message model (src/email/mod.rs, `struct Email`)
-- ============================================================================

/-- The `Email` record of src/email/mod.rs.  Timestamps are modelled as
integers (seconds); `date` is `none` when the header was unparsable. -/
structure Email where
  uid : Nat
  subject : Str
  «from» : Str
  fromAddress : Str
  date : Option Int
  body : Str
  seen : Bool
  important : Bool
  messageId : Option Str
  inReplyTo : Option Str
  references : List Str
  deriving DecidableEq, Repr

-- ============================================================================
-- Thread reconstruction (src/email/mod.rs, `ImapClient::fetch_thread`)
-- ============================================================================

/-- The id-collection prologue of `fetch_thread`: start from
`email.references`, push `in_reply_to` if not already present, then push
`message_id` if not already present. -/
def collectIds (references : List Str) (inReplyTo : Option Str) (messageId : Option Str) :
    List Str :=
  let ids := references
  let ids :=
    match inReplyTo with
    | some r => if r ∈ ids then ids else ids ++ [r]
    | none => ids
  match messageId with
  | some m => if m ∈ ids then ids else ids ++ [m]
  | none => ids

/-- The single-id predicate of `build_or_query`:
`format!("HEADER Message-ID \"{}\"", id)`. -/
def predStr (id : Str) : Str :=
  "HEADER Message-ID \"".toList ++ id ++ "\"".toList

/-- `build_or_query` (nested fn of `fetch_thread`): 0 ids give the empty
string, one id its predicate alone, otherwise
`format!("OR {} {}", first, build_or_query(rest))`. -/
def buildOrQuery : List Str → Str
  | [] => []
  | [x] => predStr x
  | x :: rest => "OR ".toList ++ predStr x ++ " ".toList ++ buildOrQuery rest

/-- Abstract IMAP search queries: a single Message-ID predicate or a
disjunction of two queries.  Used to state what the string built by
`build_or_query` denotes. -/
inductive MsgQuery
  | pred (id : Str)
  | disj (q1 q2 : MsgQuery)
  deriving DecidableEq, Repr

/-- Rendering of an abstract query as an IMAP search string
(`OR q1 q2` is IMAP's prefix disjunction). -/
def renderQuery : MsgQuery → Str
  | .pred id => predStr id
  | .disj a b => "OR ".toList ++ renderQuery a ++ " ".toList ++ renderQuery b

/-- The ids whose messages an abstract query matches. -/
def coveredIds : MsgQuery → List Str
  | .pred id => [id]
  | .disj a b => coveredIds a ++ coveredIds b

/-- The right-associated disjunction chain over a nonempty id list
(head plus tail). -/
def rightChain : Str → List Str → MsgQuery
  | x, [] => .pred x
  | x, y :: r => .disj (.pred x) (rightChain y r)

/-- A query is a right-associated chain when every left disjunct is a
single predicate. -/
def isRightChain : MsgQuery → Bool
  | .pred _ => true
  | .disj (.pred _) rest => isRightChain rest
  | .disj _ _ => false

/-- The comparator `a.date.cmp(&b.date)` of `fetch_thread`'s final sort,
as a ≤-relation on optional timestamps (Rust orders `None` before
`Some`). -/
def optDateLe : Option Int → Option Int → Bool
  | none, _ => true
  | some _, none => false
  | some a, some b => a ≤ b

instance : DecidableRel (fun (a b : Email) => optDateLe a.date b.date = true) :=
  fun _ _ => inferInstanceAs (Decidable (_ = true))

/-- `emails.sort_by(|a, b| a.date.cmp(&b.date))`: a stable sort ascending
by timestamp, `None` dates first. -/
def sortByDate (l : List Email) : List Email :=
  l.insertionSort (fun a b => optDateLe a.date b.date = true)

/-- `ImapClient::fetch_thread` (src/email/mod.rs).  The IMAP session is
the external collaborator: `search` models `uid_search` and `fetch`
models `uid_fetch` combined with the per-message parsing chain of the
`filter_map` (each fetched message yields `some` parsed email, or `none`
when any of `msg.uid`, `msg.body()`, `parser.parse` is absent, in which
case it is skipped).  The secondary `uid_search` for important uids only
decides the `important` flags of the parsed emails and is folded into
`fetch`. -/
def fetchThread (search : Str → Except Unit (List Nat))
    (fetch : List Nat → Except Unit (List (Option Email))) (email : Email) :
    Except Unit (List Email) :=
  let ids := collectIds email.references email.inReplyTo email.messageId
  if ids.isEmpty then .ok [email]
  else
    match search (buildOrQuery ids) with
    | .error e => .error e
    | .ok uids =>
      if uids.isEmpty then .ok [email]
      else
        match fetch uids with
        | .error e => .error e
        | .ok msgs => .ok (sortByDate (msgs.filterMap id))

example :
    collectIds ["a".toList, "b".toList] (some "c".toList) (some "d".toList) =
      ["a".toList, "b".toList, "c".toList, "d".toList] := rfl
example :
    buildOrQuery ["a".toList, "b".toList] =
      "OR HEADER Message-ID \"a\" HEADER Message-ID \"b\"".toList := rfl

-- ============================================================================
-- Compose editor and text cursor engine (src/ui/app.rs)
-- ============================================================================

/-- `ComposeField` of src/ui/app.rs (this version has no Cc field). -/
inductive ComposeField
  | «to»
  | subject
  | body
  deriving DecidableEq, Repr

/-- `ComposeMode` of src/ui/app.rs. -/
inductive ComposeMode
  | new
  | reply
  | replyAll
  | forward
  deriving DecidableEq, Repr

/-- `EditMode` of src/ui/app.rs. -/
inductive EditMode
  | normal
  | insert
  deriving DecidableEq, Repr

/-- `EmailInChain` of src/ui/app.rs (a quoted prior message). -/
structure EmailInChain where
  «from» : Str
  date : Option Int
  body : Str
  deriving DecidableEq, Repr

/-- `ComposeState` of src/ui/app.rs. -/
structure ComposeState where
  «to» : Str
  subject : Str
  body : Str
  activeField : ComposeField
  mode : ComposeMode
  editMode : EditMode
  cursorPos : Nat
  replyChain : List EmailInChain
  chainScroll : Nat
  deriving DecidableEq, Repr

/-- `ComposeState::default()`. -/
def defaultCompose : ComposeState :=
  { «to» := [], subject := [], body := [], activeField := .«to», mode := .new,
    editMode := .insert, cursorPos := 0, replyChain := [], chainScroll := 0 }

/-- `App::get_current_field`: the buffer selected by the active field.
The cursor/editing methods of `App` read and write only `self.compose`,
so they are modelled as functions on `ComposeState`. -/
def currentField (st : ComposeState) : Str :=
  match st.activeField with
  | .«to» => st.«to»
  | .subject => st.subject
  | .body => st.body

/-- The write-back half of `App::get_current_field_mut`. -/
def setCurrentField (st : ComposeState) (s : Str) : ComposeState :=
  match st.activeField with
  | .«to» => { st with «to» := s }
  | .subject => { st with subject := s }
  | .body => { st with body := s }

/-- `App::move_cursor_left`. -/
def moveCursorLeft (st : ComposeState) : ComposeState :=
  if st.cursorPos > 0 then { st with cursorPos := st.cursorPos - 1 } else st

/-- `App::move_cursor_right`.  Note that the source bounds the cursor by
`self.get_current_field().len()`, the *byte* length of the field. -/
def moveCursorRight (st : ComposeState) : ComposeState :=
  let len := byteLen (currentField st)
  if st.cursorPos < len then { st with cursorPos := st.cursorPos + 1 } else st

/-- A forward `while` scan: advance `pos` while it is in bounds and the
character at `pos` satisfies `p`. -/
def advanceWhile (p : Char → Bool) (chars : Str) (pos : Nat) : Nat :=
  if h : pos < chars.length then
    if p (chars.get ⟨pos, h⟩) then advanceWhile p chars (pos + 1) else pos
  else pos
termination_by chars.length - pos

/-- `App::move_cursor_word_forward`: skip non-whitespace, then skip
whitespace, then clamp by `field.len()` (the byte length, as in the
source; the clamp is inert since the scan never passes the char count). -/
def moveCursorWordForward (st : ComposeState) : ComposeState :=
  let chars := currentField st
  let pos := advanceWhile (fun c => !c.isWhitespace) chars st.cursorPos
  let pos := advanceWhile (fun c => c.isWhitespace) chars pos
  { st with cursorPos := min pos (byteLen chars) }

/-- The first backward `while` of `move_cursor_word_backward`:
`while pos > 0 && chars[pos].is_whitespace() { pos -= 1 }` (out-of-range
indexing, which would panic in Rust, is modelled by a default blank). -/
def skipWSBack (chars : Str) : Nat → Nat
  | 0 => 0
  | p + 1 => if (chars.getD (p + 1) ' ').isWhitespace then skipWSBack chars p else p + 1

/-- The second backward `while` of `move_cursor_word_backward`:
`while pos > 0 && !chars[pos - 1].is_whitespace() { pos -= 1 }`. -/
def skipNonWSBack (chars : Str) : Nat → Nat
  | 0 => 0
  | p + 1 => if !(chars.getD p ' ').isWhitespace then skipNonWSBack chars p else p + 1

/-- `App::move_cursor_word_backward`. -/
def moveCursorWordBackward (st : ComposeState) : ComposeState :=
  let chars := currentField st
  let pos := st.cursorPos
  let pos := if pos > 0 then pos - 1 else pos
  let pos := skipWSBack chars pos
  let pos := skipNonWSBack chars pos
  { st with cursorPos := pos }

/-- `App::insert_char`: clamp the cursor to a character index
(`field.chars().take(pos).count()`), find the byte offset of that
character index, and insert there when in bounds.  Inserting at the byte
offset of character index `char_pos` inserts at character index
`char_pos`, so the new buffer is `take char_pos ++ [c] ++ drop char_pos`. -/
def insertChar (c : Char) (st : ComposeState) : ComposeState :=
  let pos := st.cursorPos
  let field := currentField st
  let charPos := (field.take pos).length
  let bytePos := ((field.take charPos).map Char.utf8Size).sum
  if bytePos ≤ byteLen field then
    { setCurrentField st (field.take charPos ++ [c] ++ field.drop charPos) with
      cursorPos := st.cursorPos + 1 }
  else st

/-- `App::delete_char_before`: when the cursor is positive and the
character index before it is in bounds, remove exactly that character
(the source removes the byte range `byte_pos..byte_pos + char_len` of
character index `pos`, i.e. `take pos ++ drop (pos + 1)`). -/
def deleteCharBefore (st : ComposeState) : ComposeState :=
  if st.cursorPos > 0 then
    let pos := st.cursorPos - 1
    let chars := currentField st
    if pos < chars.length then
      { setCurrentField st (chars.take pos ++ chars.drop (pos + 1)) with
        cursorPos := st.cursorPos - 1 }
    else st
  else st

/-- `App::delete_char_at`: remove the character at the cursor when in
bounds; the cursor does not move. -/
def deleteCharAt (st : ComposeState) : ComposeState :=
  let pos := st.cursorPos
  let chars := currentField st
  if pos < chars.length then
    setCurrentField st (chars.take pos ++ chars.drop (pos + 1))
  else st

/-- `App::sync_cursor_to_field`: clamp the cursor to the character count
of the (new) active field. -/
def syncCursorToField (st : ComposeState) : ComposeState :=
  { st with cursorPos := min st.cursorPos (currentField st).length }

/-- `email.subject.starts_with("Re:")` — "Re:" is ASCII, so the byte
test of the source coincides with this character test. -/
def startsWithRe : Str → Bool
  | 'R' :: 'e' :: ':' :: _ => true
  | _ => false

/-- The subject transformation of `App::start_reply`: keep a subject
already starting with "Re:", otherwise prepend "Re: ". -/
def replySubject (s : Str) : Str :=
  if startsWithRe s then s else "Re: ".toList ++ s

example : replySubject "hello".toList = "Re: hello".toList := rfl
example : replySubject "Re: hello".toList = "Re: hello".toList := rfl
example :
    (deleteCharBefore (insertChar 'x'
        { defaultCompose with body := "ab".toList, activeField := .body, cursorPos := 1 })) =
      { defaultCompose with body := "ab".toList, activeField := .body, cursorPos := 1 } := rfl

-- ============================================================================
-- Search and list/selection indexing (src/ui/app.rs)
-- ============================================================================

/-- `SearchState` of src/ui/app.rs. -/
structure SearchState where
  query : Str
  results : List Nat
  selected : Nat
  active : Bool
  deriving DecidableEq, Repr

/-- `SearchState::default()`. -/
def defaultSearch : SearchState :=
  { query := [], results := [], selected := 0, active := false }

/-- The text searched for each email:
`format!("{} {} {}", email.from, email.subject, email.body)`. -/
def emailText (e : Email) : Str :=
  e.«from» ++ [' '] ++ e.subject ++ [' '] ++ e.body

/-- `App::update_search`.  The fuzzy matcher (`SkimMatcherV2::fuzzy_match`,
an external crate) is the parameter `matcher`: it returns a score when the
text matches the query.  An empty query selects every index; otherwise an
email's index is kept exactly when the matcher returns a score.  The
highlighted result is reset to 0. -/
def updateSearch (matcher : Str → Str → Option Int) (emails : List Email)
    (st : SearchState) : SearchState :=
  let results :=
    if st.query.isEmpty then List.range emails.length
    else
      emails.enum.filterMap fun p => (matcher (emailText p.2) st.query).map fun _ => p.1
  { st with results := results, selected := 0 }

/-- `Iterator::position` of a value in a list (first index at which it
occurs, if any). -/
def positionOf (x : Nat) : List Nat → Option Nat
  | [] => none
  | y :: r => if y = x then some 0 else (positionOf x r).map (· + 1)

/-- `App::select_next`, acting on the selection value of `list_state`
(`None` is read through `unwrap_or(0)`): move one position forward in the
visible index list, saturating at its last position. -/
def selectNext (indices : List Nat) (sel : Option Nat) : Option Nat :=
  if indices.isEmpty then sel
  else
    let current := sel.getD 0
    let currentPos := (positionOf current indices).getD 0
    some (indices.getD (min (currentPos + 1) (indices.length - 1)) 0)

/-- `App::select_previous`: move one position backward in the visible
index list, saturating at position 0. -/
def selectPrevious (indices : List Nat) (sel : Option Nat) : Option Nat :=
  if indices.isEmpty then sel
  else
    let current := sel.getD 0
    let currentPos := (positionOf current indices).getD 0
    some (indices.getD (currentPos - 1) 0)

-- ============================================================================
-- App state and the Inbox key handler
-- (src/ui/app.rs and src/ui/keybindings.rs)
-- ============================================================================

/-- `View` as used by src/ui/keybindings.rs (which includes the Remind
view of the newer `App`). -/
inductive View
  | inbox
  | emailView
  | compose
  | help
  | search
  | command
  | remind
  deriving DecidableEq, Repr

/-- `Folder` of src/ui/app.rs. -/
inductive Folder
  | inbox
  | sent
  | drafts
  | trash
  | archive
  deriving DecidableEq, Repr

/-- The `Action` vocabulary of src/ui/keybindings.rs (intents returned to
the driver loop). -/
inductive UiAction
  | none
  | refresh
  | sendEmail
  | saveDraft
  | editDraft
  | deleteEmail
  | archiveEmail
  | markAsRead (uid : Nat)
  | changeFolder (f : Folder)
  | fetchThread
  | remindEmail (uid : Nat) (duration : Str)
  deriving DecidableEq, Repr

/-- The key events `handle_inbox_keys` distinguishes (crossterm
`KeyCode`): character keys, Enter, Esc, arrows, and anything else. -/
inductive Key
  | char (c : Char)
  | enter
  | esc
  | down
  | up
  | other
  deriving DecidableEq, Repr

/-- `CommandState` of src/ui/app.rs. -/
structure CommandState where
  input : Str
  cursor : Nat
  deriving DecidableEq, Repr

/-- `CommandState::default()`. -/
def defaultCommand : CommandState := { input := [], cursor := 0 }

/-- The remind-input state used by src/ui/keybindings.rs (its `App`
version; it holds the duration text being typed and a cursor). -/
structure RemindState where
  input : Str
  cursor : Nat
  deriving DecidableEq, Repr

/-- The default remind-input state. -/
def defaultRemind : RemindState := { input := [], cursor := 0 }

/-- The fields of `App` read or written by `handle_inbox_keys` and the
`App` methods it calls.  `listSelection` is `list_state.selected()`;
`starred` models the `HashSet<u32>` of starred uids by its membership
list; `selected` is the multi-select set of src/ui/keybindings.rs's `App`
version. -/
structure AppState where
  emails : List Email
  listSelection : Option Nat
  view : View
  scrollOffset : Nat
  compose : ComposeState
  shouldQuit : Bool
  pending : Option Char
  currentFolder : Folder
  search : SearchState
  command : CommandState
  starred : List Nat
  selected : List Nat
  remind : RemindState
  deriving DecidableEq, Repr

/-- `App::get_visible_indices`: the search results when filtering is
active, the full logical range otherwise. -/
def visibleIndices (app : AppState) : List Nat :=
  if app.search.active then app.search.results else List.range app.emails.length

/-- `App::selected_email`:
`list_state.selected().and_then(|i| emails.get(i))`. -/
def selectedEmail (app : AppState) : Option Email :=
  app.listSelection.bind fun i => app.emails.get? i

/-- `App::select_next` at the `App` level. -/
def appSelectNext (app : AppState) : AppState :=
  { app with listSelection := selectNext (visibleIndices app) app.listSelection }

/-- `App::select_previous` at the `App` level. -/
def appSelectPrevious (app : AppState) : AppState :=
  { app with listSelection := selectPrevious (visibleIndices app) app.listSelection }

/-- `App::select_first`: select the first visible index, if any. -/
def appSelectFirst (app : AppState) : AppState :=
  let indices := visibleIndices app
  if indices.isEmpty then app else { app with listSelection := some (indices.getD 0 0) }

/-- `App::select_last`: select the last visible index, if any. -/
def appSelectLast (app : AppState) : AppState :=
  let indices := visibleIndices app
  if indices.isEmpty then app
  else { app with listSelection := some (indices.getD (indices.length - 1) 0) }

/-- `App::clear_search_filter`. -/
def clearSearchFilter (app : AppState) : AppState :=
  { app with search := { app.search with active := false, query := [], results := [] } }

/-- `App::toggle_star`: toggle the selected email's uid in the starred
set (set membership modelled on the list `starred`). -/
def toggleStar (app : AppState) : AppState :=
  match selectedEmail app with
  | some e =>
    if e.uid ∈ app.starred then { app with starred := app.starred.erase e.uid }
    else { app with starred := e.uid :: app.starred }
  | none => app

/-- `App::start_reply` (src/ui/app.rs): if an email is selected, build a
fresh compose state addressed to its sender, with the "Re:"-prefixed (or
kept) subject, the reply mode, the quoted chain, the body field active in
insert mode, and switch to the Compose view. -/
def startReply (app : AppState) (replyAll : Bool) : AppState :=
  match selectedEmail app with
  | some email =>
    let compose : ComposeState :=
      { defaultCompose with
        «to» := email.fromAddress
        subject := if startsWithRe email.subject then email.subject
                   else "Re: ".toList ++ email.subject
        mode := if replyAll then .replyAll else .reply
        replyChain := [{ «from» := email.«from», date := email.date, body := email.body }]
        activeField := .body
        editMode := .insert
        cursorPos := 0 }
    { app with compose := compose, view := .compose }
  | none => app

/-- The collaborators of `handle_inbox_keys` that live outside
src/ui/app.rs: the fuzzy matcher (external crate) and the `App` methods
of the newer `App` version used by src/ui/keybindings.rs whose bodies are
not part of this source tree (`select_next_with_selection`,
`select_previous_with_selection`, `toggle_selection`, `clear_selection`,
`cycle_importance_filter`, `CommandState::update_suggestions`).  Theorems
quantify over them. -/
structure InboxDeps where
  matcher : Str → Str → Option Int
  selectNextWithSelection : AppState → AppState
  selectPreviousWithSelection : AppState → AppState
  toggleSelection : AppState → AppState
  clearSelection : AppState → AppState
  cycleImportanceFilter : AppState → AppState
  updateSuggestions : AppState → AppState

/-- The trivial collaborator bundle: a matcher that never matches and
identity for every missing `App` method. -/
def trivDeps : InboxDeps :=
  { matcher := fun _ _ => none, selectNextWithSelection := id,
    selectPreviousWithSelection := id, toggleSelection := id, clearSelection := id,
    cycleImportanceFilter := id, updateSuggestions := id }

/-- The non-pending part of `handle_inbox_keys` (the `match key.code`
after the pending-command block). -/
def handleInboxNormal (d : InboxDeps) (app : AppState) (k : Key) : AppState × UiAction :=
  match k with
  | .char 'q' => ({ app with shouldQuit := true }, .none)
  | .char 'J' => (d.selectNextWithSelection app, .none)
  | .char 'K' => (d.selectPreviousWithSelection app, .none)
  | .char 'j' | .down => (appSelectNext app, .none)
  | .char 'k' | .up => (appSelectPrevious app, .none)
  | .char 'g' => ({ app with pending := some 'g' }, .none)
  | .char 'G' => (appSelectLast app, .none)
  | .enter | .char 'l' =>
    match selectedEmail app with
    | some email =>
      let app := { app with view := .emailView, scrollOffset := 0 }
      if !email.seen then (app, .markAsRead email.uid) else (app, .none)
    | none => (app, .none)
  | .char 'c' => ({ app with compose := defaultCompose, view := .compose }, .none)
  | .char 'e' => if (selectedEmail app).isSome then (app, .archiveEmail) else (app, .none)
  | .char 'd' => if (selectedEmail app).isSome then (app, .deleteEmail) else (app, .none)
  | .char 's' => (toggleStar app, .none)
  | .char 'x' => (d.toggleSelection app, .none)
  | .esc => (if !app.selected.isEmpty then d.clearSelection app else app, .none)
  | .char 'h' =>
    if (selectedEmail app).isSome then
      ({ app with remind := defaultRemind, view := .remind }, .none)
    else (app, .none)
  | .char 'I' => (d.cycleImportanceFilter app, .none)
  | .char 'R' => (app, .refresh)
  | .char '/' =>
    let app := { app with search := defaultSearch }
    let app := { app with search := updateSearch d.matcher app.emails app.search }
    ({ app with view := .search }, .none)
  | .char ':' =>
    let app := d.updateSuggestions { app with command := defaultCommand }
    ({ app with view := .command }, .none)
  | .char '?' => ({ app with view := .help }, .none)
  | _ => (app, .none)

/-- `handle_inbox_keys` (src/ui/keybindings.rs): with a pending command
token, Esc cancels it; otherwise the token is cleared and the pair
(token, key) is matched against the fixed `g`-table, any miss falling
through to the normal key dispatch. -/
def handleInboxKeys (d : InboxDeps) (app : AppState) (k : Key) : AppState × UiAction :=
  match app.pending with
  | some pending =>
    if k = .esc then ({ app with pending := none }, .none)
    else
      let app := { app with pending := none }
      match pending, k with
      | 'g', .char 'g' => (appSelectFirst app, .none)
      | 'g', .char 'i' => (clearSearchFilter app, .changeFolder .inbox)
      | 'g', .char 't' => (clearSearchFilter app, .changeFolder .sent)
      | 'g', .char 'd' => (clearSearchFilter app, .changeFolder .drafts)
      | 'g', .char 'e' => (clearSearchFilter app, .changeFolder .trash)
      | 'g', .char 'a' => (clearSearchFilter app, .changeFolder .archive)
      | _, _ => handleInboxNormal d app k
  | none => handleInboxNormal d app k

/-- A baseline app state for concrete evaluations. -/
def app0 : AppState :=
  { emails := [], listSelection := some 0, view := .inbox, scrollOffset := 0,
    compose := defaultCompose, shouldQuit := false, pending := none,
    currentFolder := .inbox, search := defaultSearch, command := defaultCommand,
    starred := [], selected := [], remind := defaultRemind }

example :
    handleInboxKeys trivDeps { app0 with pending := some 'g' } (.char 'q') =
      ({ app0 with pending := none, shouldQuit := true }, .none) := rfl
example :
    handleInboxKeys trivDeps { app0 with pending := some 'g' } .esc =
      ({ app0 with pending := none }, .none) := rfl
example :
    handleInboxKeys trivDeps { app0 with pending := some 'g' } (.char 'i') =
      (clearSearchFilter app0, .changeFolder .inbox) := rfl

-- ============================================================================
-- Concrete fixtures for witnesses and counterexamples
-- ============================================================================

/-- An email with no headers, no date and empty everything. -/
def e0 : Email :=
  { uid := 0, subject := [], «from» := [], fromAddress := [], date := none, body := [],
    seen := false, important := false, messageId := none, inReplyTo := none,
    references := [] }

/-- An email carrying a single reference header. -/
def e1 : Email := { e0 with references := ["a".toList] }

/-- A search collaborator that always reports one uid. -/
def searchOne : Str → Except Unit (List Nat) := fun _ => .ok [1]

/-- A fetch collaborator that returns one message which fails to parse. -/
def fetchUnparsed : List Nat → Except Unit (List (Option Email)) := fun _ => .ok [none]

/-- A search collaborator that always reports no uids. -/
def searchNone : Str → Except Unit (List Nat) := fun _ => .ok []

/-- A fetch collaborator that returns no messages. -/
def fetchNone : List Nat → Except Unit (List (Option Email)) := fun _ => .ok []

-- ============================================================================
-- Helper lemmas
-- ============================================================================

theorem byteLen_take_le (l : Str) (p : Nat) :
    ((l.take p).map Char.utf8Size).sum ≤ byteLen l := by
  conv_rhs => rw [byteLen, ← List.take_append_drop p l]
  rw [List.map_append, List.sum_append]
  exact Nat.le_add_right _ _

theorem roundtrip_list (l : Str) (c : Char) (p : Nat) (h : p ≤ l.length) :
    (l.take p ++ [c] ++ l.drop p).take p ++ (l.take p ++ [c] ++ l.drop p).drop (p + 1) = l := by
  have h1 : (l.take p).length = p := by
    simp [List.length_take, Nat.min_eq_left h]
  have e1 : (l.take p ++ [c] ++ l.drop p).take p = l.take p := by
    rw [List.append_assoc, List.take_left' h1]
  have h2 : (l.take p ++ [c]).length = p + 1 := by simp [h1]
  have e2 : (l.take p ++ [c] ++ l.drop p).drop (p + 1) = l.drop p := List.drop_left' h2
  rw [e1, e2, List.take_append_drop]

theorem length_filterMap_id_of_isSome (msgs : List (Option Email))
    (h : ∀ o ∈ msgs, o.isSome = true) : (msgs.filterMap id).length = msgs.length := by
  induction msgs with
  | nil => rfl
  | cons o r ih =>
    cases o with
    | none => exact absurd (h none (by simp)) (by simp)
    | some e =>
      simp only [List.filterMap_cons, id, List.length_cons]
      rw [ih fun o ho => h o (by simp [ho])]

theorem sortByDate_length (l : List Email) : (sortByDate l).length = l.length :=
  List.length_insertionSort _ l

theorem getD_mem_of_lt (l : List Nat) (k : Nat) (h : k < l.length) : l.getD k 0 ∈ l := by
  induction l generalizing k with
  | nil => cases h
  | cons y r ih =>
    cases k with
    | zero => simp [List.getD]
    | succ k =>
      have := ih k (by simpa using h)
      simp [List.getD] at this ⊢
      exact Or.inr this

theorem positionOf_get (l : List Nat) (hnd : l.Nodup) (j : Nat) (h : j < l.length) :
    positionOf (l.get ⟨j, h⟩) l = some j := by
  induction l generalizing j with
  | nil => cases h
  | cons y r ih =>
    cases j with
    | zero => simp [positionOf]
    | succ j =>
      have hj : j < r.length := by simpa using h
      have hy : y ≠ r.get ⟨j, hj⟩ := by
        intro e
        exact (List.nodup_cons.mp hnd).1 (e ▸ r.get_mem j hj)
      simp only [positionOf, List.get_cons_succ]
      rw [if_neg hy, ih (List.nodup_cons.mp hnd).2 j hj]
      rfl

theorem positionOf_lt_length (l : List Nat) (x i : Nat) (h : positionOf x l = some i) :
    i < l.length := by
  induction l generalizing i with
  | nil => cases h
  | cons y r ih =>
    by_cases hx : y = x
    · simp only [positionOf, if_pos hx, Option.some.injEq] at h
      subst h
      simp
    · simp only [positionOf, if_neg hx, Option.map_eq_some'] at h
      obtain ⟨i', hi', rfl⟩ := h
      have := ih i' hi'
      simp only [List.length_cons]
      omega

theorem positionOf_getD_lt (l : List Nat) (x : Nat) (hne : l ≠ []) :
    (positionOf x l).getD 0 < l.length := by
  cases h : positionOf x l with
  | none =>
    simp only [Option.getD_none]
    exact List.length_pos.mpr hne
  | some i =>
    simpa using positionOf_lt_length l x i h

theorem selectNext_getD (l : List Nat) (hp : l.Pairwise (· < ·)) (j : Nat)
    (h : j < l.length) :
    selectNext l (some (l.getD j 0)) = some (l.getD (min (j + 1) (l.length - 1)) 0) := by
  have hne : l.isEmpty = false := by
    cases l
    · cases h
    · rfl
  have hnd : l.Nodup := hp.imp Nat.ne_of_lt
  rw [List.getD_eq_getElem l 0 h]
  show selectNext l (some (l.get ⟨j, h⟩)) = _
  simp only [selectNext, hne, Bool.false_eq_true, if_false, Option.getD_some,
    positionOf_get l hnd j h]

theorem selectNext_iter_getD (l : List Nat) (hp : l.Pairwise (· < ·)) (k : Nat) :
    ∀ j, j < l.length →
      (fun s => selectNext l s)^[k] (some (l.getD j 0)) =
        some (l.getD (min (j + k) (l.length - 1)) 0) := by
  induction k with
  | zero =>
    intro j h
    have : min (j + 0) (l.length - 1) = j := by omega
    rw [Function.iterate_zero_apply, this]
  | succ k ih =>
    intro j h
    rw [Function.iterate_succ_apply]
    show (fun s => selectNext l s)^[k] (selectNext l (some (l.getD j 0))) = _
    rw [selectNext_getD l hp j h]
    have hj1 : min (j + 1) (l.length - 1) < l.length := by omega
    rw [ih _ hj1]
    have : min (min (j + 1) (l.length - 1) + k) (l.length - 1) =
        min (j + (k + 1)) (l.length - 1) := by omega
    rw [this]

theorem selectNext_mem (l : List Nat) (hne : l ≠ []) (sel : Option Nat) :
    ∃ i ∈ l, selectNext l sel = some i := by
  have hE : l.isEmpty = false := by cases l <;> simp_all
  have hlen : 0 < l.length := List.length_pos.mpr hne
  refine ⟨l.getD (min ((positionOf (sel.getD 0) l).getD 0 + 1) (l.length - 1)) 0, ?_, ?_⟩
  · exact getD_mem_of_lt l _ (by omega)
  · simp [selectNext, hE]

theorem selectPrevious_mem (l : List Nat) (hne : l ≠ []) (sel : Option Nat) :
    ∃ i ∈ l, selectPrevious l sel = some i := by
  have hE : l.isEmpty = false := by cases l <;> simp_all
  have hlen : 0 < l.length := List.length_pos.mpr hne
  have hpos := positionOf_getD_lt l (sel.getD 0) hne
  refine ⟨l.getD ((positionOf (sel.getD 0) l).getD 0 - 1) 0, ?_, ?_⟩
  · exact getD_mem_of_lt l _ (by omega)
  · simp [selectPrevious, hE]

theorem selectNext_iter_last (l : List Nat) (hp : l.Pairwise (· < ·)) (hne : l ≠ [])
    (sel : Option Nat) (k : Nat) (hk : l.length ≤ k) :
    (fun s => selectNext l s)^[k] sel = some (l.getD (l.length - 1) 0) := by
  have hE : l.isEmpty = false := by cases l <;> simp_all
  have hlen : 0 < l.length := List.length_pos.mpr hne
  cases k with
  | zero => omega
  | succ m =>
    rw [Function.iterate_succ_apply]
    have hstep : selectNext l sel =
        some (l.getD (min ((positionOf (sel.getD 0) l).getD 0 + 1) (l.length - 1)) 0) := by
      simp [selectNext, hE]
    rw [hstep, selectNext_iter_getD l hp m _ (by omega)]
    have : min (min ((positionOf (sel.getD 0) l).getD 0 + 1) (l.length - 1) + m)
        (l.length - 1) = l.length - 1 := by omega
    rw [this]

theorem filterMap_fst_sublist (l : List (Nat × Email)) (g : Nat × Email → Option Nat)
    (hg : ∀ p x, g p = some x → x = p.1) : (l.filterMap g).Sublist (l.map Prod.fst) := by
  induction l with
  | nil => simp
  | cons p r ih =>
    cases hgp : g p with
    | none =>
      simp only [List.filterMap_cons, hgp, List.map_cons]
      exact ih.cons p.1
    | some x =>
      have := hg p x hgp
      subst this
      simp only [List.filterMap_cons, hgp, List.map_cons]
      exact ih.cons₂ p.1

theorem updateSearch_results_pairwise (matcher : Str → Str → Option Int)
    (emails : List Email) (st : SearchState) :
    (updateSearch matcher emails st).results.Pairwise (· < ·) := by
  unfold updateSearch
  by_cases hq : st.query.isEmpty
  · simp only [hq, if_true]
    exact List.pairwise_lt_range _
  · simp only [hq, Bool.false_eq_true, if_false]
    have hsub := filterMap_fst_sublist emails.enum
      (fun p => (matcher (emailText p.2) st.query).map fun _ => p.1)
      (by
        intro p x hx
        simp only [Option.map_eq_some'] at hx
        obtain ⟨_, _, h2⟩ := hx
        omega)
    rw [List.enum_map_fst] at hsub
    exact (List.pairwise_lt_range _).sublist hsub

theorem filterMap_matcher_none (matcher : Str → Str → Option Int) (q : Str) (k : Nat)
    (l : List Email) (hm : ∀ e ∈ l, matcher (emailText e) q = none) :
    (List.enumFrom k l).filterMap (fun p => (matcher (emailText p.2) q).map fun _ => p.1) =
      [] := by
  induction l generalizing k with
  | nil => rfl
  | cons e r ih =>
    simp only [List.enumFrom, List.filterMap_cons, hm e (by simp), Option.map_none']
    exact ih (k + 1) fun x hx => hm x (by simp [hx])

-- ============================================================================
-- Claim theorems
-- ============================================================================

/-- C4: `parse_duration("2 days")` equals 2×24 hours and
`parse_duration("1 week")` equals 7 days; in general, for every count
whose token parses as an `i64` integer `n` and a unit token whose
lowercasing is week(s) or month(s), the result is `n` × 7 days
respectively a fixed `n` × 30 days. -/
theorem parse_duration_units :
    parseDuration "2 days".toList = .ok (2 * (24 * 3600)) ∧
    parseDuration "1 week".toList = .ok (7 * 86400) ∧
    (∀ (s a u : Str) (n : Int), splitWS (strTrim s) = [a, u] → parseI64 a = some n →
      (u.map Char.toLower = "week".toList ∨ u.map Char.toLower = "weeks".toList) →
      parseDuration s = .ok (n * (7 * 86400))) ∧
    (∀ (s a u : Str) (n : Int), splitWS (strTrim s) = [a, u] → parseI64 a = some n →
      (u.map Char.toLower = "month".toList ∨ u.map Char.toLower = "months".toList) →
      parseDuration s = .ok (n * (30 * 86400))) := by
  refine ⟨rfl, rfl, ?_, ?_⟩ <;>
    · intro s a u n hs hp hu
      simp only [parseDuration, hs, hp]
      rcases hu with h | h <;> rw [h] <;> rfl

/-- C4 witness: the general week/month clauses at concrete inputs. -/
theorem parse_duration_units_witness :
    parseDuration "4 Weeks".toList = .ok (4 * (7 * 86400)) ∧
    parseDuration "2 MONTHS".toList = .ok (2 * (30 * 86400)) :=
  ⟨parse_duration_units.2.2.1 "4 Weeks".toList "4".toList "Weeks".toList 4 rfl rfl
      (Or.inr rfl),
    parse_duration_units.2.2.2 "2 MONTHS".toList "2".toList "MONTHS".toList 2 rfl rfl
      (Or.inr rfl)⟩

/-- C5 counterexample: the claim requires any input that is not of the
exact single-separating-space form to fail, but `"2  days"` (two spaces)
parses successfully, because the source splits on whitespace runs. -/
theorem parse_duration_double_space :
    parseDuration "2  days".toList = .ok 172800 := rfl

/-- C5 (amended): `parse_duration` succeeds exactly when whitespace
tokenization (trim, then split on whitespace runs) yields two tokens,
the first parsing as a signed 64-bit integer and the second, lowercased,
a recognised unit; `"bad input"` fails with the invalid-number error
and `"5 fortnights"` fails with the unknown-unit error. -/
theorem parse_duration_error_iff :
    (∀ s : Str,
      (∃ d, parseDuration s = .ok d) ↔
        ∃ a u n, splitWS (strTrim s) = [a, u] ∧ parseI64 a = some n ∧
          ∃ f, unitFactor (u.map Char.toLower) = some f) ∧
    parseDuration "bad input".toList = .error (.invalidNumber "bad".toList) ∧
    parseDuration "5 fortnights".toList = .error (.unknownUnit "fortnights".toList) := by
  refine ⟨?_, rfl, rfl⟩
  intro s
  constructor
  · rintro ⟨d, hd⟩
    rcases hsp : splitWS (strTrim s) with _ | ⟨a, _ | ⟨u, rest⟩⟩
    · simp [parseDuration, hsp] at hd
    · simp [parseDuration, hsp] at hd
    · cases rest with
      | nil =>
        rcases hp : parseI64 a with _ | n
        · simp [parseDuration, hsp, hp] at hd
        · rcases hf : unitFactor (u.map Char.toLower) with _ | f
          · simp [parseDuration, hsp, hp, hf] at hd
          · exact ⟨a, u, n, rfl, hp, f, hf⟩
      | cons v rest' => simp [parseDuration, hsp] at hd
  · rintro ⟨a, u, n, hsp, hp, f, hf⟩
    exact ⟨n * f, by simp [parseDuration, hsp, hp, hf]⟩

/-- C2: the id collection keeps references order and appends the
in-reply-to and message ids only when absent (checked at the claim's
concrete instance, covering exactly a, b, c, d); for every nonempty id
list, the string built by `build_or_query` renders the right-associated
chain of pairwise disjunctions whose predicates cover exactly that list;
and an empty collected id list makes `fetch_thread` return the original
message alone. -/
theorem build_or_query_structure :
    (∀ (x : Str) (r : List Str),
      buildOrQuery (x :: r) = renderQuery (rightChain x r) ∧
      coveredIds (rightChain x r) = x :: r ∧
      isRightChain (rightChain x r) = true) ∧
    collectIds ["a".toList, "b".toList] (some "c".toList) (some "d".toList) =
      ["a".toList, "b".toList, "c".toList, "d".toList] ∧
    coveredIds (rightChain "a".toList ["b".toList, "c".toList, "d".toList]) =
      ["a".toList, "b".toList, "c".toList, "d".toList] ∧
    (∀ (search : Str → Except Unit (List Nat))
        (fetch : List Nat → Except Unit (List (Option Email))) (email : Email),
      collectIds email.references email.inReplyTo email.messageId = [] →
      fetchThread search fetch email = .ok [email]) := by
  refine ⟨?_, rfl, rfl, ?_⟩
  · intro x r
    induction r generalizing x with
    | nil => exact ⟨rfl, rfl, rfl⟩
    | cons y r' ih =>
      obtain ⟨h1, h2, h3⟩ := ih y
      refine ⟨?_, ?_, ?_⟩
      · show "OR ".toList ++ predStr x ++ " ".toList ++ buildOrQuery (y :: r') = _
        rw [h1]
        rfl
      · show [x] ++ coveredIds (rightChain y r') = x :: y :: r'
        rw [h2]
        rfl
      · show isRightChain (rightChain y r') = true
        exact h3
  · intro search fetch email h
    simp [fetchThread, h]

/-- C2 witness: the empty-id clause at a concrete header-free message and
trivial collaborators. -/
theorem build_or_query_structure_witness :
    fetchThread searchNone fetchNone e0 = .ok [e0] :=
  build_or_query_structure.2.2.2 searchNone fetchNone e0 rfl

/-- C3 counterexample: with a search collaborator reporting uid 1 and a
fetch collaborator whose single message fails to parse, `fetch_thread`
returns `Ok` of the empty list — the claim forbids an empty sequence for
every collaborator response. -/
theorem fetch_thread_empty_counterexample :
    fetchThread searchOne fetchUnparsed e1 = .ok [] := rfl

/-- C3 (amended): `fetch_thread` returns exactly the original message
alone whenever the collected id list is empty or the search reports no
uids; when uids are found it returns the successfully parsed fetched
messages sorted by date — nonempty whenever the fetch response is
nonempty and every fetched message parses, but possibly empty when no
fetched message parses. -/
theorem fetch_thread_fallback :
    (∀ (search : Str → Except Unit (List Nat))
        (fetch : List Nat → Except Unit (List (Option Email))) (email : Email),
      search (buildOrQuery (collectIds email.references email.inReplyTo email.messageId)) =
          .ok [] →
      fetchThread search fetch email = .ok [email]) ∧
    (∀ (search : Str → Except Unit (List Nat))
        (fetch : List Nat → Except Unit (List (Option Email))) (email : Email)
        (uids : List Nat) (msgs : List (Option Email)),
      search (buildOrQuery (collectIds email.references email.inReplyTo email.messageId)) =
          .ok uids →
      fetch uids = .ok msgs → msgs ≠ [] → (∀ o ∈ msgs, o.isSome = true) →
      ∃ l, fetchThread search fetch email = .ok l ∧ l ≠ []) := by
  constructor
  · intro search fetch email h
    unfold fetchThread
    by_cases hids :
        (collectIds email.references email.inReplyTo email.messageId).isEmpty
    · simp [hids]
    · simp [hids, h]
  · intro search fetch email uids msgs hs hf hne hsome
    unfold fetchThread
    by_cases hids :
        (collectIds email.references email.inReplyTo email.messageId).isEmpty
    · exact ⟨[email], by simp [hids], by simp⟩
    · by_cases huids : uids.isEmpty
      · exact ⟨[email], by simp [hids, hs, huids], by simp⟩
      · refine ⟨sortByDate (msgs.filterMap id), by simp [hids, hs, huids, hf], ?_⟩
        intro hl
        have hlen := sortByDate_length (msgs.filterMap id)
        rw [hl] at hlen
        simp only [List.length_nil] at hlen
        have h2 := length_filterMap_id_of_isSome msgs hsome
        have h3 : msgs.length = 0 := by omega
        exact hne (List.length_eq_zero.mp h3)

/-- C3 witness: the search-found-nothing clause at a message that does
carry a reference header. -/
theorem fetch_thread_fallback_witness :
    fetchThread searchNone fetchNone e1 = .ok [e1] :=
  fetch_thread_fallback.1 searchNone fetchNone e1 rfl

/-- C9: inserting a character at a valid cursor position and then
deleting the character before the cursor restores the whole compose
state — buffer content and cursor position included. -/
theorem insert_delete_roundtrip (st : ComposeState) (c : Char)
    (h : st.cursorPos ≤ (currentField st).length) :
    deleteCharBefore (insertChar c st) = st := by
  obtain ⟨f1, f2, f3, af, mo, em, cur, rc, cs⟩ := st
  cases af <;>
  · simp only [currentField] at h
    simp only [insertChar, currentField, setCurrentField]
    rw [if_pos (byteLen_take_le _ _)]
    simp only [List.length_take, Nat.min_eq_left h]
    simp only [deleteCharBefore, currentField, setCurrentField]
    rw [if_pos (Nat.succ_pos cur)]
    simp only [Nat.add_sub_cancel]
    rw [if_pos (by
      simp only [List.length_append, List.length_take, List.length_cons,
        List.length_nil, List.length_drop]
      omega)]
    rw [roundtrip_list _ c cur h]

/-- C9 witness: the round-trip at a concrete buffer "ab", cursor 1. -/
theorem insert_delete_roundtrip_witness :
    deleteCharBefore (insertChar 'x'
        { defaultCompose with body := "ab".toList, activeField := .body, cursorPos := 1 }) =
      { defaultCompose with body := "ab".toList, activeField := .body, cursorPos := 1 } :=
  insert_delete_roundtrip
    { defaultCompose with body := "ab".toList, activeField := .body, cursorPos := 1 } 'x'
    (by decide)

/-- The compose state witnessing C1's violation: the To field holds the
single two-byte character é and the cursor sits at its character length 1
(a valid character index). -/
def stE : ComposeState := { defaultCompose with «to» := ['é'], cursorPos := 1 }

/-- C1: the cursor invariant `cursor_pos ≤ char_len` is violated by
`move_cursor_right`, which bounds the cursor by the *byte* length of the
field: from the valid state `stE` (`cursor_pos = char_len = 1`, byte
length 2) one step moves the cursor to 2, strictly beyond the character
length 1 of the unchanged field. -/
theorem move_cursor_right_byte_bound :
    stE.cursorPos ≤ (currentField stE).length ∧
    byteLen (currentField stE) = 2 ∧
    (moveCursorRight stE).cursorPos = 2 ∧
    (currentField (moveCursorRight stE)).length = 1 := by
  refine ⟨by decide, by decide, ?_, by decide⟩
  show (if stE.cursorPos < byteLen (currentField stE) then
      { stE with cursorPos := stE.cursorPos + 1 } else stE).cursorPos = 2
  decide

/-- C10: `start_reply` sets the compose subject to the selected email's
subject unchanged when it already starts with "Re:", and to "Re: "
prepended to it otherwise; this transformation is idempotent, so a second
reply never stacks another "Re:" prefix. -/
theorem start_reply_subject_idem (app : AppState) (b : Bool) (email : Email)
    (h : selectedEmail app = some email) :
    (startReply app b).compose.subject = replySubject email.subject ∧
    (startsWithRe email.subject = true → replySubject email.subject = email.subject) ∧
    (startsWithRe email.subject = false →
      replySubject email.subject = "Re: ".toList ++ email.subject) ∧
    replySubject (replySubject email.subject) = replySubject email.subject := by
  refine ⟨?_, ?_, ?_, ?_⟩
  · simp only [startReply, h, replySubject]
  · intro hs
    simp [replySubject, hs]
  · intro hs
    simp [replySubject, hs]
  · cases hs : startsWithRe email.subject
    · have h1 : replySubject email.subject = "Re: ".toList ++ email.subject := by
        simp [replySubject, hs]
      rw [h1]
      show replySubject ('R' :: 'e' :: ':' :: ' ' :: email.subject) =
        'R' :: 'e' :: ':' :: ' ' :: email.subject
      simp [replySubject, startsWithRe]
    · simp [replySubject, hs]

/-- An email whose subject is already a reply, selected in a small app
state. -/
def eR : Email := { e0 with subject := "Re: hi".toList }

/-- C10 witness: replying to `eR` keeps its subject unchanged. -/
theorem start_reply_subject_idem_witness :
    (startReply { app0 with emails := [eR], listSelection := some 0 } false).compose.subject =
      replySubject eR.subject ∧
    replySubject (replySubject eR.subject) = replySubject eR.subject :=
  ⟨(start_reply_subject_idem { app0 with emails := [eR], listSelection := some 0 }
      false eR rfl).1,
    (start_reply_subject_idem { app0 with emails := [eR], listSelection := some 0 }
      false eR rfl).2.2.2⟩

/-- C7: over the current visible index set (the full logical range when
search filtering is inactive, the search results — as produced by
`update_search` — when active), `select_next` and `select_previous`
always land on a member of the visible set, and iterating `select_next`
at least `length` many times reaches the last visible index, where it
stays (no wrap). -/
theorem select_next_previous_visible (app : AppState)
    (hres : app.search.active = true →
      ∃ (matcher : Str → Str → Option Int) (st : SearchState),
        app.search.results = (updateSearch matcher app.emails st).results)
    (hne : visibleIndices app ≠ []) :
    (∀ sel, ∃ i ∈ visibleIndices app, selectNext (visibleIndices app) sel = some i) ∧
    (∀ sel, ∃ i ∈ visibleIndices app, selectPrevious (visibleIndices app) sel = some i) ∧
    (∀ (sel : Option Nat) (k : Nat), (visibleIndices app).length ≤ k →
      (fun s => selectNext (visibleIndices app) s)^[k] sel =
        some ((visibleIndices app).getD ((visibleIndices app).length - 1) 0)) := by
  have hp : (visibleIndices app).Pairwise (· < ·) := by
    unfold visibleIndices
    cases ha : app.search.active
    · simp only [Bool.false_eq_true, if_false]
      exact List.pairwise_lt_range _
    · simp only [if_true]
      obtain ⟨matcher, st, he⟩ := hres ha
      rw [he]
      exact updateSearch_results_pairwise matcher app.emails st
  exact ⟨selectNext_mem _ hne, selectPrevious_mem _ hne,
    fun sel k hk => selectNext_iter_last _ hp hne sel k hk⟩

/-- C7 witness: two emails, no filtering; two steps of `select_next`
from an empty selection land on the last visible index. -/
theorem select_next_previous_visible_witness :
    (∃ i ∈ visibleIndices { app0 with emails := [e0, eR] },
      selectNext (visibleIndices { app0 with emails := [e0, eR] }) (some 0) = some i) ∧
    (fun s => selectNext (visibleIndices { app0 with emails := [e0, eR] }) s)^[2] none =
      some ((visibleIndices { app0 with emails := [e0, eR] }).getD 1 0) :=
  ⟨(select_next_previous_visible { app0 with emails := [e0, eR] }
      (fun ha => absurd ha (by decide)) (by decide)).1 (some 0),
    (select_next_previous_visible { app0 with emails := [e0, eR] }
      (fun ha => absurd ha (by decide)) (by decide)).2.2 none 2 (by decide)⟩

/-- C8: `update_search` with an empty query yields every logical index in
original order; with a non-empty query that the matcher rejects for every
email, it yields the empty result list; and the highlighted result index
is reset to 0 on every recomputation.  (An empty query never consults the
matcher, so "a query matching no message" is a non-empty query.) -/
theorem update_search_results (matcher : Str → Str → Option Int) (emails : List Email)
    (st : SearchState) :
    (st.query = [] → (updateSearch matcher emails st).results = List.range emails.length) ∧
    (st.query ≠ [] → (∀ e ∈ emails, matcher (emailText e) st.query = none) →
      (updateSearch matcher emails st).results = []) ∧
    (updateSearch matcher emails st).selected = 0 := by
  refine ⟨?_, ?_, rfl⟩
  · intro hq
    simp [updateSearch, hq]
  · intro hq hm
    have hq' : st.query.isEmpty = false := by
      cases h : st.query
      · exact absurd h hq
      · rfl
    simp only [updateSearch, hq', Bool.false_eq_true, if_false]
    exact filterMap_matcher_none matcher st.query 0 emails hm

/-- C8 witness: with one email, the empty query returns index 0 and a
never-matching matcher with a non-empty query returns nothing. -/
theorem update_search_results_witness :
    (updateSearch (fun _ _ => none) [e0] defaultSearch).results = List.range 1 ∧
    (updateSearch (fun _ _ => none) [e0]
        { defaultSearch with query := "z".toList }).results = [] ∧
    (updateSearch (fun _ _ => none) [e0] defaultSearch).selected = 0 :=
  ⟨(update_search_results (fun _ _ => none) [e0] defaultSearch).1 rfl,
    (update_search_results (fun _ _ => none) [e0]
        { defaultSearch with query := "z".toList }).2.1 (by decide)
      (fun e _ => rfl),
    (update_search_results (fun _ _ => none) [e0] defaultSearch).2.2⟩

/-- C6 counterexample: with a pending `g` token, the unrecognized
follow-up key `q` does not merely clear the token — the key falls through
to the normal Inbox dispatch and quits the application (a state change
beyond clearing the pending token), for any collaborator bundle. -/
theorem pending_g_unrecognized_counterexample :
    (handleInboxKeys trivDeps { app0 with pending := some 'g' } (.char 'q')).1.shouldQuit =
        true ∧
    app0.shouldQuit = false ∧
    (handleInboxKeys trivDeps { app0 with pending := some 'g' } (.char 'q')).1.pending =
        none ∧
    (handleInboxKeys trivDeps { app0 with pending := some 'g' } (.char 'q')).2 =
        UiAction.none :=
  ⟨rfl, rfl, rfl, rfl⟩

/-- C6 (amended): with a pending `g` token, Esc cancels the token and
does nothing else; the fixed table (`gg`, `gi`, `gt`, `gd`, `ge`, `ga`)
performs the mapped jump or folder change on the token-cleared state; and
any other follow-up key clears the token and is then handled exactly as a
normal (non-pending) Inbox key press. -/
theorem pending_g_dispatch (d : InboxDeps) (app : AppState)
    (h : app.pending = some 'g') :
    handleInboxKeys d app .esc = ({ app with pending := none }, .none) ∧
    handleInboxKeys d app (.char 'g') =
      (appSelectFirst { app with pending := none }, .none) ∧
    handleInboxKeys d app (.char 'i') =
      (clearSearchFilter { app with pending := none }, .changeFolder .inbox) ∧
    handleInboxKeys d app (.char 't') =
      (clearSearchFilter { app with pending := none }, .changeFolder .sent) ∧
    handleInboxKeys d app (.char 'd') =
      (clearSearchFilter { app with pending := none }, .changeFolder .drafts) ∧
    handleInboxKeys d app (.char 'e') =
      (clearSearchFilter { app with pending := none }, .changeFolder .trash) ∧
    handleInboxKeys d app (.char 'a') =
      (clearSearchFilter { app with pending := none }, .changeFolder .archive) ∧
    (∀ k : Key, k ≠ .esc →
      (∀ c : Char, k = .char c → c ∉ (['g', 'i', 't', 'd', 'e', 'a'] : List Char)) →
      handleInboxKeys d app k = handleInboxNormal d { app with pending := none } k) := by
  refine ⟨by simp [handleInboxKeys, h], by simp [handleInboxKeys, h],
    by simp [handleInboxKeys, h], by simp [handleInboxKeys, h],
    by simp [handleInboxKeys, h], by simp [handleInboxKeys, h],
    by simp [handleInboxKeys, h], ?_⟩
  intro k hk hc
  simp only [handleInboxKeys, h]
  rw [if_neg hk]
  cases k with
  | esc => exact absurd rfl hk
  | enter => rfl
  | down => rfl
  | up => rfl
  | other => rfl
  | char c =>
    have hg : c ≠ 'g' := fun e => hc c rfl (by simp [e])
    have hi : c ≠ 'i' := fun e => hc c rfl (by simp [e])
    have ht : c ≠ 't' := fun e => hc c rfl (by simp [e])
    have hd : c ≠ 'd' := fun e => hc c rfl (by simp [e])
    have he : c ≠ 'e' := fun e => hc c rfl (by simp [e])
    have ha : c ≠ 'a' := fun e => hc c rfl (by simp [e])
    split
    case _ heq => exact absurd (Key.char.inj heq) hg
    case _ heq => exact absurd (Key.char.inj heq) hi
    case _ heq => exact absurd (Key.char.inj heq) ht
    case _ heq => exact absurd (Key.char.inj heq) hd
    case _ heq => exact absurd (Key.char.inj heq) he
    case _ heq => exact absurd (Key.char.inj heq) ha
    case _ => rfl

/-- C6 witness: Esc cancels a concrete pending `g` token with no other
change and no action. -/
theorem pending_g_dispatch_witness :
    handleInboxKeys trivDeps { app0 with pending := some 'g' } .esc =
      ({ { app0 with pending := some 'g' } with pending := none }, .none) :=
  (pending_g_dispatch trivDeps { app0 with pending := some 'g' } rfl).1

/-- C5 witness: the success characterization instantiated at "1 hour". -/
theorem parse_duration_error_iff_witness :
    ∃ d, parseDuration "1 hour".toList = .ok d :=
  (parse_duration_error_iff.1 "1 hour".toList).mpr
    ⟨"1".toList, "hour".toList, 1, rfl, rfl, 3600, rfl⟩
